import Mathlib

/-!
Shallow embedding of `src/imaging_google.py` (the med-sight Streamlit app).

The script has four verifiable parts:
* the DICOM pixel normalization block (module level, lines 106-114);
* the display resize arithmetic (lines 123-127);
* the markdown-to-docx conversion `create_docx` (lines 163-193);
* the top-level UI/control flow (agent construction, upload handling,
  decode-failure stop, analyze-button behaviour, network call).

Machine floats in the source (`astype(float)`, true division) are modelled
with exact rationals; the `astype("uint8")` cast is modelled as C-style
truncation toward zero followed by reduction mod 256.  Strings are modelled
as `List Char`; the Python string operations used by the script (`strip`,
`startswith`, `endswith`, `lower`, `replace`, `split`) are given explicit
embeddings below.
-/

set_option linter.unusedSectionVars false

namespace MedSight

/-! ## Definitions -/

/-- numpy `.min()` over the (flattened) pixel array; junk value on `[]`
(numpy raises there, and the script only reaches it with a decoded array). -/
def listMinD {α : Type} [LinearOrder α] [Inhabited α] : List α → α
  | [] => default
  | x :: xs => xs.foldl min x

/-- numpy `.max()` over the (flattened) pixel array; junk value on `[]`. -/
def listMaxD {α : Type} [LinearOrder α] [Inhabited α] : List α → α
  | [] => default
  | x :: xs => xs.foldl max x

/-- C-style truncation toward zero, as Python `int()` / numpy float-to-int. -/
def truncQ (q : ℚ) : ℤ := if 0 ≤ q then ⌊q⌋ else ⌈q⌉

/-- numpy `astype("uint8")` on a float value: truncate toward zero, mod 256. -/
def toU8 (q : ℚ) : ℕ := (truncQ q % 256).toNat

/-- The DICOM normalization block (lines 106-114) applied to the (flattened)
pixel array:

```python
pixel_array = ds.pixel_array.astype(float)
pixel_array -= pixel_array.min()
if pixel_array.max() > 0:
    pixel_array /= pixel_array.max()
pixel_array = (pixel_array * 255).astype("uint8")
```

The maximum in the guard and in the division is that of the shifted array,
exactly as in the source. -/
def normalizeDicom (l : List ℚ) : List ℕ :=
  ((if 0 < listMaxD (l.map (fun x => x - listMinD l)) then
      (l.map (fun x => x - listMinD l)).map
        (fun x => x / listMaxD (l.map (fun x => x - listMinD l)))
    else
      l.map (fun x => x - listMinD l)).map (fun x => toU8 (x * 255)))

/-- Display resize arithmetic (lines 123-127):

```python
aspect_ratio = width / height
new_width = 500
new_height = int(new_width / aspect_ratio)
```

Returns `(new_width, new_height)`. -/
def resizeDims (w h : ℕ) : ℕ × ℕ :=
  (500, (truncQ (500 / ((w : ℚ) / (h : ℚ)))).toNat)

/-- Python `str.strip` whitespace test, restricted to the ASCII whitespace
characters (space, tab, newline, carriage return, vertical tab, form feed). -/
def isSpace (c : Char) : Bool :=
  c == ' ' || c == '\t' || c == '\n' || c == '\r' ||
  c == Char.ofNat 11 || c == Char.ofNat 12

/-- Python `str.strip()`: drop whitespace from both ends. -/
def pyStrip (l : List Char) : List Char :=
  ((l.dropWhile isSpace).reverse.dropWhile isSpace).reverse

/-- Python `str.startswith` / list-prefix test. -/
def isPref : List Char → List Char → Bool
  | [], _ => true
  | _ :: _, [] => false
  | p :: ps, c :: cs => p == c && isPref ps cs

/-- Python `str.endswith`. -/
def pyEndsWith (suf l : List Char) : Bool := isPref suf.reverse l.reverse

/-- ASCII lower-casing of one character (Python `str.lower` on the script's
ASCII file names). -/
def toLowerA (c : Char) : Char :=
  if 'A' ≤ c && c ≤ 'Z' then Char.ofNat (c.toNat + 32) else c

/-- Python `str.lower` (ASCII). -/
def pyLower (l : List Char) : List Char := l.map toLowerA

/-- Line 105: `file_name.endswith(".dcm") or file_name.endswith(".dicom")`
applied to the lower-cased upload name. -/
def isDicomName (name : List Char) : Bool :=
  pyEndsWith ".dcm".data (pyLower name) || pyEndsWith ".dicom".data (pyLower name)

/-- Modelled from the spec: the script passes the computed dimensions to
`PIL.Image.resize`, which is outside the repository; a displayable raster
is produced only for positive width and height (a zero dimension fails the
display path). -/
def pilResizeOk (w h : ℕ) : Bool := decide (0 < w) && decide (0 < h)

/-- One item of the generated document (`python-docx` calls made by
`create_docx`): a heading with its text and level, a page break, the
embedded picture, or a paragraph made of (text, bold?) runs. -/
inductive DocItem : Type
  | heading (text : List Char) (level : ℕ)
  | pageBreak
  | picture
  | paragraph (runs : List (List Char × Bool))
deriving DecidableEq

/-- Helper for the bold regex `(\*\*|__)(.+?)\1`: given the delimiter `d`
just consumed, find the lazily-shortest non-empty inner text (of
non-newline characters, as `.`) followed by the same delimiter.  Returns
`(inner, rest-after-closing-delimiter)`. -/
def closeAt (d : List Char) : List Char → Option (List Char × List Char)
  | [] => none
  | c :: cs =>
    if c == '\n' then none
    else if isPref d cs then some ([c], cs.drop d.length)
    else
      match closeAt d cs with
      | some (inner, rest) => some (c :: inner, rest)
      | none => none

/-- Attempt of the bold regex at the current position: the alternation
`(\*\*|__)` tries each delimiter as a prefix, then the lazy inner text and
the backreference.  Returns `(delimiter, inner, rest)`. -/
def tryStart (cs : List Char) : Option (List Char × List Char × List Char) :=
  if isPref ['*', '*'] cs then
    (closeAt ['*', '*'] (cs.drop 2)).map (fun p => (['*', '*'], p.1, p.2))
  else if isPref ['_', '_'] cs then
    (closeAt ['_', '_'] (cs.drop 2)).map (fun p => (['_', '_'], p.1, p.2))
  else none

/-- Leftmost match of the bold regex `(\*\*|__)(.+?)\1` (as `re.finditer`
finds it): returns `(text-before, delimiter, inner, rest)`. -/
def firstMatch : List Char → Option (List Char × List Char × List Char × List Char)
  | [] => none
  | c :: cs =>
    match tryStart (c :: cs) with
    | some (d, inner, rest) => some ([], d, inner, rest)
    | none =>
      match firstMatch cs with
      | some (before, d, inner, rest) => some (c :: before, d, inner, rest)
      | none => none

/-- Fuel-indexed run builder for one line (the `bold_pattern.finditer` loop
of `create_docx`, lines 181-192): unmatched text becomes plain runs, each
match contributes one bold run with the inner text, and scanning resumes
after the closing delimiter.  The fuel only bounds the recursion; with
fuel `≥ 1` per match it never runs out because every match consumes at
least three characters. -/
def boldRunsF : ℕ → List Char → List (List Char × Bool)
  | 0, cs => if cs.isEmpty then [] else [(cs, false)]
  | n + 1, cs =>
    match firstMatch cs with
    | none => if cs.isEmpty then [] else [(cs, false)]
    | some (before, _d, inner, rest) =>
      (if before.isEmpty then [] else [(before, false)]) ++
        (inner, true) :: boldRunsF n rest

/-- The (text, bold?) runs produced for one line of the analysis text. -/
def boldRuns (cs : List Char) : List (List Char × Bool) :=
  boldRunsF cs.length cs

/-- One line of the analysis loop of `create_docx` (lines 174-192):

```python
if line.startswith('#'):
    doc.add_heading(line.replace('#', '').strip(), level=1)
elif line.strip() == '---':
    doc.add_page_break()
elif line.strip():
    ...  # bold-run splitting
```

A blank line produces nothing. -/
def processLine (line : List Char) : List DocItem :=
  if isPref ['#'] line then
    [DocItem.heading (pyStrip (line.filter (fun c => c != '#'))) 1]
  else if pyStrip line = ['-', '-', '-'] then
    [DocItem.pageBreak]
  else if pyStrip line ≠ [] then
    [DocItem.paragraph (boldRuns line)]
  else []

/-- Python `str.split` with a one-character separator (`line.split('\n')`):
always returns at least one (possibly empty) piece. -/
def pySplit (sep : Char) : List Char → List (List Char)
  | [] => [[]]
  | c :: cs =>
    match pySplit sep cs with
    | [] => [[]]
    | r :: rs => if c == sep then [] :: r :: rs else (c :: r) :: rs

/-- The export function `create_docx` (lines 163-193): title heading, image
heading, the picture, then the converted analysis lines. -/
def create_docx (analysisMarkdown : List Char) : List DocItem :=
  DocItem.heading "Medical Imaging Analysis".data 0 ::
  DocItem.heading "Uploaded Image".data 1 ::
  DocItem.picture ::
  (pySplit '\n' analysisMarkdown).flatMap processLine

/-- Python truthiness of `os.getenv("GOOGLE_API_KEY")`: `None` and the
empty string are falsy. -/
def pyTruthy : Option String → Bool
  | none => false
  | some s => decide (s ≠ "")

/-- Lines 39-47: the agent is constructed only when the key is truthy
(`Agent(...) if GOOGLE_API_KEY else None`).  The agent itself is opaque. -/
def medical_agent (googleApiKey : Option String) : Option Unit :=
  if pyTruthy googleApiKey then some () else none

/-- Outcome of `pydicom.dcmread` + `pixel_array` on the uploaded bytes:
either a decoded (flattened) pixel array with the decoded image's width and
height, or a raised decode error. -/
inductive DicomRead : Type
  | ok (pixels : List ℚ) (w h : ℕ)
  | fail
deriving DecidableEq

/-- An uploaded file: its name, what reading it as DICOM would yield, and
what `PIL.Image.open` would yield (`none` = raises). -/
structure Upload : Type where
  name : List Char
  dicom : DicomRead
  raster : Option (ℕ × ℕ)
deriving DecidableEq

/-- The user-visible widgets the script can render on one run. -/
inductive Widget : Type
  | apiSuccess      -- sidebar `st.success("Workspace ready!")`
  | apiError        -- sidebar `st.error` for the missing key
  | serviceWarning  -- `st.warning("Service is not available ...")`
  | uploader        -- `st.file_uploader`
  | uploadPrompt    -- `st.info("Please upload a medical image ...")`
  | decodeError     -- `st.error(f"Failed to read DICOM file: ...")`
  | imageView       -- `st.image(resized_image, ...)`
  | analyzeButton   -- `st.button("Analyze Image")`
  | analysisMarkdown -- `st.markdown(response.content)`
  | analysisError   -- `st.error(f"Analysis error: ...")`
  | downloadButton  -- `st.download_button(...)`
deriving DecidableEq

/-- Result of one script run: the rendered widgets, whether a network call
to the model endpoint was attempted, the displayed 8-bit DICOM raster (for
the DICOM path), the resize dimensions, and whether the run ended in an
uncaught exception. -/
structure RenderResult : Type where
  widgets : List Widget
  networkCall : Bool
  displayedDicom : Option (List ℕ)
  resized : Option (ℕ × ℕ)
  crashed : Bool
deriving DecidableEq

/-- The image-display / analyze part of the script (lines 121-219), after a
raster is available.  Line 127 calls `image.resize((new_width, new_height))`
outside any `try/except`; PIL rejects a zero dimension (modelled by
`pilResizeOk`), so when the computed height is 0 the run aborts with an
uncaught exception before `st.image` or the button is rendered.  Otherwise:
`medical_agent.run` on `None` raises an `AttributeError` before any network
traffic; the surrounding `try/except` turns it into `st.error`, so a
network call is attempted only when the agent exists.  A successful call
renders the markdown and the download button. -/
def afterImage (base : List Widget) (agent : Option Unit) (clicked : Bool)
    (dicomRaster : Option (List ℕ)) (w h : ℕ) : RenderResult :=
  if pilResizeOk (resizeDims w h).1 (resizeDims w h).2 then
    let ws := base ++ [Widget.imageView, Widget.analyzeButton]
    if clicked then
      match agent with
      | some _ =>
        ⟨ws ++ [Widget.analysisMarkdown, Widget.downloadButton], true,
          dicomRaster, some (resizeDims w h), false⟩
      | none =>
        ⟨ws ++ [Widget.analysisError], false, dicomRaster,
          some (resizeDims w h), false⟩
    else ⟨ws, false, dicomRaster, some (resizeDims w h), false⟩
  else ⟨base, false, none, none, true⟩

/-- One top-to-bottom run of the script: sidebar, agent construction,
upload handling (DICOM decode with `st.stop()` on failure, else
`PIL.Image.open`), resize, analyze button, analysis. -/
def runScript (googleApiKey : Option String) (upload : Option Upload)
    (clicked : Bool) : RenderResult :=
  let agent := medical_agent googleApiKey
  let base :=
    (if pyTruthy googleApiKey then [Widget.apiSuccess] else [Widget.apiError]) ++
    (if agent.isNone then [Widget.serviceWarning] else []) ++ [Widget.uploader]
  match upload with
  | none => ⟨base ++ [Widget.uploadPrompt], false, none, none, false⟩
  | some u =>
    if isDicomName u.name then
      match u.dicom with
      | .fail => ⟨base ++ [Widget.decodeError], false, none, none, false⟩
      | .ok pixels w h =>
        afterImage base agent clicked (some (normalizeDicom pixels)) w h
    else
      match u.raster with
      | none => ⟨base, false, none, none, true⟩
      | some (w, h) => afterImage base agent clicked none w h

/-! ## Theorems -/

/-! ### Min/max helper lemmas -/

section MinMaxLemmas

variable {α : Type} [LinearOrder α] [Inhabited α]

theorem foldl_min_le_init (l : List α) (a : α) : l.foldl min a ≤ a := by
  induction l generalizing a with
  | nil => simp
  | cons x xs ih =>
    simp only [List.foldl_cons]
    exact le_trans (ih (min a x)) (min_le_left a x)

theorem foldl_min_le_mem (l : List α) (a : α) (x : α) (hx : x ∈ l) :
    l.foldl min a ≤ x := by
  induction l generalizing a with
  | nil => cases hx
  | cons y ys ih =>
    simp only [List.foldl_cons]
    rcases List.mem_cons.mp hx with h | h
    · subst h
      exact le_trans (foldl_min_le_init ys (min a x)) (min_le_right a x)
    · exact ih (min a y) h

theorem foldl_min_mem (l : List α) (a : α) :
    l.foldl min a = a ∨ l.foldl min a ∈ l := by
  induction l generalizing a with
  | nil => left; rfl
  | cons y ys ih =>
    simp only [List.foldl_cons]
    rcases ih (min a y) with h | h
    · rcases min_cases a y with ⟨hm, _⟩ | ⟨hm, _⟩
      · left; rw [h, hm]
      · right; rw [h, hm]; exact List.mem_cons_self y ys
    · right; exact List.mem_cons_of_mem y h

theorem init_le_foldl_max (l : List α) (a : α) : a ≤ l.foldl max a := by
  induction l generalizing a with
  | nil => simp
  | cons x xs ih =>
    simp only [List.foldl_cons]
    exact le_trans (le_max_left a x) (ih (max a x))

theorem mem_le_foldl_max (l : List α) (a : α) (x : α) (hx : x ∈ l) :
    x ≤ l.foldl max a := by
  induction l generalizing a with
  | nil => cases hx
  | cons y ys ih =>
    simp only [List.foldl_cons]
    rcases List.mem_cons.mp hx with h | h
    · subst h
      exact le_trans (le_max_right a x) (init_le_foldl_max ys (max a x))
    · exact ih (max a y) h

theorem foldl_max_mem (l : List α) (a : α) :
    l.foldl max a = a ∨ l.foldl max a ∈ l := by
  induction l generalizing a with
  | nil => left; rfl
  | cons y ys ih =>
    simp only [List.foldl_cons]
    rcases ih (max a y) with h | h
    · rcases max_cases a y with ⟨hm, _⟩ | ⟨hm, _⟩
      · left; rw [h, hm]
      · right; rw [h, hm]; exact List.mem_cons_self y ys
    · right; exact List.mem_cons_of_mem y h

theorem listMinD_mem {l : List α} (h : l ≠ []) : listMinD l ∈ l := by
  cases l with
  | nil => exact absurd rfl h
  | cons x xs =>
    rcases foldl_min_mem xs x with h | h
    · rw [listMinD, h]; exact List.mem_cons_self x xs
    · rw [listMinD]; exact List.mem_cons_of_mem x h

theorem listMinD_le {l : List α} (x : α) (hx : x ∈ l) : listMinD l ≤ x := by
  cases l with
  | nil => cases hx
  | cons y ys =>
    rcases List.mem_cons.mp hx with h | h
    · subst h; exact foldl_min_le_init ys x
    · exact foldl_min_le_mem ys y x h

theorem listMaxD_mem {l : List α} (h : l ≠ []) : listMaxD l ∈ l := by
  cases l with
  | nil => exact absurd rfl h
  | cons x xs =>
    rcases foldl_max_mem xs x with h | h
    · rw [listMaxD, h]; exact List.mem_cons_self x xs
    · rw [listMaxD]; exact List.mem_cons_of_mem x h

theorem le_listMaxD {l : List α} (x : α) (hx : x ∈ l) : x ≤ listMaxD l := by
  cases l with
  | nil => cases hx
  | cons y ys =>
    rcases List.mem_cons.mp hx with h | h
    · subst h; exact init_le_foldl_max ys x
    · exact mem_le_foldl_max ys y x h

theorem listMinD_eq {l : List α} {a : α} (ha : a ∈ l)
    (hle : ∀ x ∈ l, a ≤ x) : listMinD l = a := by
  have h1 : listMinD l ≤ a := listMinD_le a ha
  have h2 : a ≤ listMinD l :=
    hle _ (listMinD_mem (by rintro rfl; cases ha))
  exact le_antisymm h1 h2

theorem listMaxD_eq {l : List α} {a : α} (ha : a ∈ l)
    (hle : ∀ x ∈ l, x ≤ a) : listMaxD l = a := by
  have h1 : a ≤ listMaxD l := le_listMaxD a ha
  have h2 : listMaxD l ≤ a :=
    hle _ (listMaxD_mem (by rintro rfl; cases ha))
  exact le_antisymm h2 h1

end MinMaxLemmas

/-! ### `uint8` cast facts -/

theorem toU8_le (q : ℚ) : toU8 q ≤ 255 := by
  unfold toU8
  have h : truncQ q % 256 < 256 := Int.emod_lt_of_pos _ (by norm_num)
  omega

theorem toU8_zero : toU8 0 = 0 := by decide

theorem toU8_255 : toU8 255 = 255 := by decide

/-! ### Claims C2 and C3: DICOM normalization -/

/-- For a non-empty pixel array, the maximum after the shift is the
original range. -/
theorem listMaxD_shift (l : List ℚ) (hne : l ≠ []) :
    listMaxD (l.map (fun x => x - listMinD l)) = listMaxD l - listMinD l := by
  apply listMaxD_eq
  · exact List.mem_map.mpr ⟨listMaxD l, listMaxD_mem hne, rfl⟩
  · intro y hy
    rcases List.mem_map.mp hy with ⟨x, hx, rfl⟩
    exact sub_le_sub_right (le_listMaxD x hx) _

/-- C2.  For every pixel array with a non-zero value range, the
normalization step (shift the minimum to 0, scale the maximum to 255, cast
to 8-bit) yields an array whose minimum is 0 and whose maximum is 255. -/
theorem normalizeDicom_min_max (l : List ℚ) (hne : l ≠ [])
    (hrange : listMinD l < listMaxD l) :
    listMinD (normalizeDicom l) = 0 ∧ listMaxD (normalizeDicom l) = 255 := by
  have hpos : 0 < listMaxD l - listMinD l := sub_pos.mpr hrange
  unfold normalizeDicom
  rw [listMaxD_shift l hne, if_pos hpos, List.map_map, List.map_map]
  constructor
  · apply listMinD_eq
    · refine List.mem_map.mpr ⟨listMinD l, listMinD_mem hne, ?_⟩
      simp only [Function.comp_apply]
      rw [sub_self, zero_div, zero_mul, toU8_zero]
    · intro x _
      exact Nat.zero_le x
  · apply listMaxD_eq
    · refine List.mem_map.mpr ⟨listMaxD l, listMaxD_mem hne, ?_⟩
      simp only [Function.comp_apply]
      rw [div_self hpos.ne', one_mul, toU8_255]
    · intro x hx
      rcases List.mem_map.mp hx with ⟨y, _, rfl⟩
      exact toU8_le _

/-- Witness for C2 at the concrete pixel array `[0, 10]`. -/
theorem normalizeDicom_min_max_witness :
    listMinD (normalizeDicom [(0 : ℚ), 10]) = 0 ∧
      listMaxD (normalizeDicom [(0 : ℚ), 10]) = 255 :=
  normalizeDicom_min_max [(0 : ℚ), 10] (by decide) (by decide)

/-- C3.  For a constant pixel array (zero range), the division is guarded
off and the normalization returns the all-zero 8-bit image. -/
theorem normalizeDicom_const (l : List ℚ) (v : ℚ) (hne : l ≠ [])
    (hconst : ∀ x ∈ l, x = v) :
    normalizeDicom l = List.replicate l.length 0 := by
  have hmv : listMinD l = v := hconst _ (listMinD_mem hne)
  have hshift : ∀ y ∈ l.map (fun x => x - listMinD l), y = 0 := by
    intro y hy
    rcases List.mem_map.mp hy with ⟨x, hx, rfl⟩
    rw [hconst x hx, hmv, sub_self]
  have hmax : listMaxD (l.map (fun x => x - listMinD l)) = 0 := by
    apply listMaxD_eq
    · refine List.mem_map.mpr ⟨listMinD l, listMinD_mem hne, ?_⟩
      rw [sub_self]
    · intro y hy
      exact le_of_eq (hshift y hy)
  unfold normalizeDicom
  rw [hmax, if_neg (lt_irrefl 0), List.map_map]
  have hmap : l.map ((fun x => toU8 (x * 255)) ∘ fun x => x - listMinD l) =
      l.map (fun _ => 0) := by
    apply List.map_congr_left
    intro x hx
    simp only [Function.comp_apply]
    rw [hconst x hx, hmv, sub_self, zero_mul, toU8_zero]
  rw [hmap]
  exact List.map_const' l 0

/-- Witness for C3 at the concrete constant pixel array `[7, 7, 7]`. -/
theorem normalizeDicom_const_witness :
    normalizeDicom [(7 : ℚ), 7, 7] = List.replicate (List.length [(7 : ℚ), 7, 7]) 0 :=
  normalizeDicom_const [(7 : ℚ), 7, 7] 7 (by decide) (by decide)

/-! ### Claims C8 and C10: display resize -/

/-- The computed height is the floor of `500 * h / w`. -/
theorem resizeDims_snd (w h : ℕ) (hh : 0 < h) :
    (resizeDims w h).2 = (⌊500 * (h : ℚ) / (w : ℚ)⌋).toNat := by
  have hrw : (500 : ℚ) / ((w : ℚ) / (h : ℚ)) = 500 * (h : ℚ) / (w : ℚ) :=
    div_div_eq_mul_div 500 _ _
  have hq0 : (0 : ℚ) ≤ 500 * (h : ℚ) / (w : ℚ) := by positivity
  unfold resizeDims truncQ
  rw [hrw, if_pos hq0]

/-- Concrete resize evaluation used by the C1 witnesses: a 100x80 image is
resized to 500x400. -/
theorem resizeDims_100_80 : resizeDims 100 80 = (500, 400) := by
  have hq : 500 * ((80 : ℕ) : ℚ) / ((100 : ℕ) : ℚ) = ((400 : ℕ) : ℚ) := by
    push_cast
    norm_num
  have h2 : (resizeDims 100 80).2 = 400 := by
    rw [resizeDims_snd 100 80 (by norm_num), hq, Int.floor_natCast]
    simp
  exact Prod.ext rfl h2

/-- The 100x80 resize passes the positive-dimension requirement. -/
theorem pilResizeOk_100_80 :
    pilResizeOk (resizeDims 100 80).1 (resizeDims 100 80).2 = true := by
  rw [resizeDims_100_80]
  decide

/-- C8.  For positive original dimensions, the resize targets width 500 and
the new height is the integer truncation of `500 / (w / h)`: it satisfies
the floor bounds `new_height ≤ 500 * h / w < new_height + 1`, so the aspect
ratio is preserved within integer rounding. -/
theorem resizeDims_aspect (w h : ℕ) (hw : 0 < w) (hh : 0 < h) :
    (resizeDims w h).1 = 500 ∧
    ((resizeDims w h).2 : ℚ) ≤ 500 * (h : ℚ) / (w : ℚ) ∧
    500 * (h : ℚ) / (w : ℚ) < (resizeDims w h).2 + 1 := by
  have hq0 : (0 : ℚ) ≤ 500 * (h : ℚ) / (w : ℚ) := by positivity
  have hfl : (0 : ℤ) ≤ ⌊500 * (h : ℚ) / (w : ℚ)⌋ := Int.floor_nonneg.mpr hq0
  have hcast : (((⌊500 * (h : ℚ) / (w : ℚ)⌋).toNat : ℚ)) =
      ((⌊500 * (h : ℚ) / (w : ℚ)⌋ : ℤ) : ℚ) := by
    conv_rhs => rw [← Int.toNat_of_nonneg hfl]
    rw [Int.cast_natCast]
  refine ⟨rfl, ?_, ?_⟩
  · rw [resizeDims_snd w h hh, hcast]
    exact Int.floor_le _
  · rw [resizeDims_snd w h hh, hcast]
    exact Int.lt_floor_add_one _

/-- Witness for C8 at width 4, height 3. -/
theorem resizeDims_aspect_witness :
    (resizeDims 4 3).1 = 500 ∧
    ((resizeDims 4 3).2 : ℚ) ≤ 500 * (3 : ℚ) / (4 : ℚ) ∧
    500 * (3 : ℚ) / (4 : ℚ) < (resizeDims 4 3).2 + 1 :=
  resizeDims_aspect 4 3 (by decide) (by decide)

/-- C10.  For positive original dimensions, the computed display height is
zero exactly when the width exceeds 500 times the height, so the resize is
handed a zero dimension (and a displayable raster exists) iff the
precondition `w ≤ 500 * h` holds. -/
theorem resizeDims_valid_iff (w h : ℕ) (hw : 0 < w) (hh : 0 < h) :
    ((resizeDims w h).2 = 0 ↔ 500 * h < w) ∧
    (pilResizeOk (resizeDims w h).1 (resizeDims w h).2 = true ↔ w ≤ 500 * h) := by
  have hwq : (0 : ℚ) < (w : ℚ) := by exact_mod_cast hw
  have hzero : (resizeDims w h).2 = 0 ↔ 500 * h < w := by
    rw [resizeDims_snd w h hh, Int.toNat_eq_zero]
    have h1 : ⌊500 * (h : ℚ) / (w : ℚ)⌋ ≤ 0 ↔ ⌊500 * (h : ℚ) / (w : ℚ)⌋ < 1 := by
      omega
    have h2 : ⌊500 * (h : ℚ) / (w : ℚ)⌋ < 1 ↔ 500 * (h : ℚ) / (w : ℚ) < 1 := by
      rw [Int.floor_lt]
      norm_num
    rw [h1, h2, div_lt_one hwq]
    exact_mod_cast Iff.rfl
  refine ⟨hzero, ?_⟩
  unfold pilResizeOk
  simp only [Bool.and_eq_true, decide_eq_true_eq]
  constructor
  · rintro ⟨-, h2⟩
    by_contra hgt
    rw [Nat.not_le] at hgt
    have := hzero.mpr hgt
    omega
  · intro hle
    refine ⟨by norm_num [resizeDims], ?_⟩
    rcases Nat.eq_zero_or_pos (resizeDims w h).2 with h0 | hpos
    · exact absurd (hzero.mp h0) (by omega)
    · exact hpos

/-- Witness for C10 at width 2000, height 3 (width greater than 500 times
the height). -/
theorem resizeDims_valid_iff_witness :
    ((resizeDims 2000 3).2 = 0 ↔ 500 * 3 < 2000) ∧
    (pilResizeOk (resizeDims 2000 3).1 (resizeDims 2000 3).2 = true ↔
      2000 ≤ 500 * 3) :=
  resizeDims_valid_iff 2000 3 (by decide) (by decide)

/-! ### Claims C5, C6, C9: heading, rule and bold conversion -/

/-- C5.  A line `### Title` (for any heading text without `#` and without
surrounding whitespace) becomes a heading whose text is exactly the title,
with no marker characters. -/
theorem processLine_heading (t : List Char)
    (h1 : ∀ ch ∈ t, ch ≠ '#')
    (h2 : t.dropWhile isSpace = t)
    (h3 : t.reverse.dropWhile isSpace = t.reverse) :
    processLine ('#' :: '#' :: '#' :: ' ' :: t) = [DocItem.heading t 1] := by
  have ht : List.filter (fun c => c != '#') t = t :=
    List.filter_eq_self.mpr (fun a ha => by simpa using h1 a ha)
  have hfilter :
      List.filter (fun c => c != '#') ('#' :: '#' :: '#' :: ' ' :: t) =
        ' ' :: t := by
    simp [List.filter_cons, ht]
  have hstrip : pyStrip (' ' :: t) = t := by
    unfold pyStrip
    have hd : List.dropWhile isSpace (' ' :: t) = List.dropWhile isSpace t := by
      rw [List.dropWhile_cons]
      norm_num [isSpace]
    rw [hd, h2, h3, List.reverse_reverse]
  have hpref : isPref ['#'] ('#' :: '#' :: '#' :: ' ' :: t) = true := rfl
  unfold processLine
  rw [hpref, hfilter, hstrip]
  simp

/-- Witness for C5 at the spec's own example line `### Title`. -/
theorem processLine_heading_witness :
    processLine ('#' :: '#' :: '#' :: ' ' :: "Title".data) =
      [DocItem.heading "Title".data 1] :=
  processLine_heading "Title".data (by decide) (by decide) (by decide)

/-- C6.  A line that is exactly `---` becomes a page break and produces no
text run. -/
theorem processLine_hrule : processLine "---".data = [DocItem.pageBreak] := by
  decide

/-- C9.  Heading conversion removes every `#` anywhere in the line — the
interior marker as well, not only the leading ones — and always emits a
level-1 heading regardless of how many leading `#` markers the line has:
for every marker count `n ≥ 1` and `#`-free pieces `u`, `v`, the line made
of `n` markers, then `u`, an interior `#`, and `v`, becomes the single
level-1 heading whose text is `u ++ v` stripped. -/
theorem processLine_hash_everywhere (n : ℕ) (u v : List Char) (hn : 1 ≤ n)
    (hu : ∀ c ∈ u, c ≠ '#') (hv : ∀ c ∈ v, c ≠ '#') :
    processLine (List.replicate n '#' ++ (u ++ '#' :: v)) =
      [DocItem.heading (pyStrip (u ++ v)) 1] := by
  obtain ⟨m, rfl⟩ : ∃ m, n = m + 1 := ⟨n - 1, by omega⟩
  have h1 : ∀ k, List.filter (fun c => c != '#') (List.replicate k '#') = [] := by
    intro k
    induction k with
    | zero => rfl
    | succ k ih => simp [List.replicate_succ, List.filter_cons, ih]
  have h2 : List.filter (fun c => c != '#') u = u :=
    List.filter_eq_self.mpr (fun a ha => by simpa using hu a ha)
  have h3 : List.filter (fun c => c != '#') ('#' :: v) = v := by
    have hv2 : List.filter (fun c => c != '#') v = v :=
      List.filter_eq_self.mpr (fun a ha => by simpa using hv a ha)
    simp [List.filter_cons, hv2]
  have hfilter : List.filter (fun c => c != '#')
      (List.replicate (m + 1) '#' ++ (u ++ '#' :: v)) = u ++ v := by
    rw [List.filter_append, List.filter_append, h1, h2, h3, List.nil_append]
  have hpref : isPref ['#']
      (List.replicate (m + 1) '#' ++ (u ++ '#' :: v)) = true := by
    rw [List.replicate_succ, List.cons_append]
    rfl
  unfold processLine
  rw [if_pos hpref, hfilter]

/-- Witness for C9 at the line `## A # B` (two leading markers, one
interior marker): it becomes the level-1 heading `A  B`. -/
theorem processLine_hash_everywhere_witness :
    processLine (List.replicate 2 '#' ++ (" A ".data ++ '#' :: " B".data)) =
      [DocItem.heading (pyStrip (" A ".data ++ " B".data)) 1] :=
  processLine_hash_everywhere 2 " A ".data " B".data
    (by decide) (by decide) (by decide)

/-! ### Claim C7: bold run splitting -/

theorem isPref_cons_of_ne {p x : Char} (ps xs : List Char) (h : p ≠ x) :
    isPref (p :: ps) (x :: xs) = false := by
  simp [isPref, h]

theorem tryStart_cons_none (x : Char) (xs : List Char)
    (h1 : x ≠ '*') (h2 : x ≠ '_') : tryStart (x :: xs) = none := by
  unfold tryStart
  rw [isPref_cons_of_ne _ _ (Ne.symm h1), isPref_cons_of_ne _ _ (Ne.symm h2)]
  simp

theorem firstMatch_none (cs : List Char)
    (h : ∀ ch ∈ cs, ch ≠ '*' ∧ ch ≠ '_') : firstMatch cs = none := by
  induction cs with
  | nil => rfl
  | cons x xs ih =>
    have hx := h x (List.mem_cons_self x xs)
    have ihx := ih (fun ch hch => h ch (List.mem_cons_of_mem x hch))
    simp [firstMatch, tryStart_cons_none x xs hx.1 hx.2, ihx]

theorem closeAt_exact (b c : List Char) (hb : b ≠ [])
    (hbs : ∀ ch ∈ b, ch ≠ '*' ∧ ch ≠ '\n') :
    closeAt ['*', '*'] (b ++ '*' :: '*' :: c) = some (b, c) := by
  induction b with
  | nil => exact absurd rfl hb
  | cons y ys ih =>
    have hy := hbs y (List.mem_cons_self y ys)
    cases ys with
    | nil =>
      simp [closeAt, hy.2, isPref]
    | cons z zs =>
      have hz := hbs z (List.mem_cons_of_mem y (List.mem_cons_self z zs))
      have ihz := ih (by simp) (fun ch hch => hbs ch (List.mem_cons_of_mem y hch))
      simp only [List.cons_append] at ihz ⊢
      rw [closeAt]
      rw [isPref_cons_of_ne _ _ (Ne.symm hz.1)]
      simp [hy.2, ihz]

theorem firstMatch_exact (a b c : List Char)
    (ha : ∀ ch ∈ a, ch ≠ '*' ∧ ch ≠ '_')
    (hb : b ≠ []) (hbs : ∀ ch ∈ b, ch ≠ '*' ∧ ch ≠ '\n') :
    firstMatch (a ++ '*' :: '*' :: (b ++ '*' :: '*' :: c)) =
      some (a, ['*', '*'], b, c) := by
  induction a with
  | nil =>
    have ht : tryStart ('*' :: '*' :: (b ++ '*' :: '*' :: c)) =
        some (['*', '*'], b, c) := by
      unfold tryStart
      have hp : isPref ['*', '*'] ('*' :: '*' :: (b ++ '*' :: '*' :: c)) =
          true := rfl
      rw [if_pos hp]
      simp only [List.drop_succ_cons, List.drop_zero]
      rw [closeAt_exact b c hb hbs]
      rfl
    simp [firstMatch, ht]
  | cons x a2 ih =>
    have hx := ha x (List.mem_cons_self x a2)
    have ih2 := ih (fun ch hch => ha ch (List.mem_cons_of_mem x hch))
    simp only [List.cons_append]
    simp [firstMatch, tryStart_cons_none _ _ hx.1 hx.2, ih2]

theorem boldRunsF_none (n : ℕ) (cs : List Char) (h : firstMatch cs = none) :
    boldRunsF n cs = if cs.isEmpty then [] else [(cs, false)] := by
  cases n with
  | zero => rfl
  | succ m => simp [boldRunsF, h]

theorem boldRuns_exact (a b c : List Char)
    (ha : ∀ ch ∈ a, ch ≠ '*' ∧ ch ≠ '_')
    (hbne : b ≠ []) (hbs : ∀ ch ∈ b, ch ≠ '*' ∧ ch ≠ '\n')
    (hc : ∀ ch ∈ c, ch ≠ '*' ∧ ch ≠ '_') :
    boldRuns (a ++ '*' :: '*' :: (b ++ '*' :: '*' :: c)) =
      (if a.isEmpty then [] else [(a, false)]) ++
        (b, true) :: (if c.isEmpty then [] else [(c, false)]) := by
  obtain ⟨n, hn⟩ :
      ∃ n, (a ++ '*' :: '*' :: (b ++ '*' :: '*' :: c)).length = n + 1 := by
    cases a with
    | nil => exact ⟨_, rfl⟩
    | cons x xs => exact ⟨_, rfl⟩
  rw [boldRuns, hn, boldRunsF]
  rw [firstMatch_exact a b c ha hbne hbs]
  show (if a.isEmpty = true then [] else [(a, false)]) ++
      (b, true) :: boldRunsF n c = _
  rw [boldRunsF_none n c (firstMatch_none c hc)]

theorem mem_dropWhile_of_neg {p : Char → Bool} {c : Char} (hc : p c = false) :
    ∀ l : List Char, c ∈ l → c ∈ l.dropWhile p := by
  intro l
  induction l with
  | nil => intro h; cases h
  | cons x xs ih =>
    intro h
    rw [List.dropWhile_cons]
    by_cases hx : p x = true
    · rw [if_pos hx]
      rcases List.mem_cons.mp h with rfl | h2
      · rw [hx] at hc; cases hc
      · exact ih h2
    · rw [if_neg hx]
      exact h

theorem mem_pyStrip {c : Char} (hc : isSpace c = false) {l : List Char}
    (h : c ∈ l) : c ∈ pyStrip l := by
  unfold pyStrip
  have h1 := mem_dropWhile_of_neg hc l h
  have h2 : c ∈ (l.dropWhile isSpace).reverse := List.mem_reverse.mpr h1
  have h3 := mem_dropWhile_of_neg hc _ h2
  exact List.mem_reverse.mpr h3

/-- C7.  A line `a**b**c` whose pieces contain no delimiter characters
(`*`, `_`), with `b` non-empty, is converted to one paragraph whose runs
are: the plain text before the match (when non-empty), a bold run holding
exactly the inner text with no delimiter characters, and the plain text
after the match (when non-empty), in order. -/
theorem processLine_bold (a b c : List Char)
    (ha : ∀ ch ∈ a, ch ≠ '*' ∧ ch ≠ '_' ∧ ch ≠ '#')
    (hbs : ∀ ch ∈ b, ch ≠ '*' ∧ ch ≠ '\n')
    (hc : ∀ ch ∈ c, ch ≠ '*' ∧ ch ≠ '_')
    (hbne : b ≠ []) :
    processLine (a ++ '*' :: '*' :: (b ++ '*' :: '*' :: c)) =
      [DocItem.paragraph ((if a.isEmpty then [] else [(a, false)]) ++
        (b, true) :: (if c.isEmpty then [] else [(c, false)]))] := by
  have hstar : '*' ∈ a ++ '*' :: '*' :: (b ++ '*' :: '*' :: c) :=
    List.mem_append_right _ (List.mem_cons_self _ _)
  have hsp : isSpace '*' = false := by decide
  have hmem := mem_pyStrip hsp hstar
  have hne_seq : pyStrip (a ++ '*' :: '*' :: (b ++ '*' :: '*' :: c)) ≠
      ['-', '-', '-'] := by
    intro hEq
    rw [hEq] at hmem
    simp at hmem
  have hne_nil : pyStrip (a ++ '*' :: '*' :: (b ++ '*' :: '*' :: c)) ≠ [] := by
    intro hEq
    rw [hEq] at hmem
    cases hmem
  have hpref : isPref ['#'] (a ++ '*' :: '*' :: (b ++ '*' :: '*' :: c)) =
      false := by
    cases a with
    | nil => rfl
    | cons x xs =>
      have hx := (ha x (List.mem_cons_self x xs)).2.2
      simp only [List.cons_append]
      exact isPref_cons_of_ne _ _ (Ne.symm hx)
  unfold processLine
  rw [if_neg (by simp [hpref]), if_neg hne_seq, if_pos hne_nil,
    boldRuns_exact a b c (fun ch hch => ⟨(ha ch hch).1, (ha ch hch).2.1⟩)
      hbne hbs hc]

/-- Witness for C7 at the line `See **this** now.`. -/
theorem processLine_bold_witness :
    processLine ("See ".data ++ '*' :: '*' ::
        ("this".data ++ '*' :: '*' :: " now.".data)) =
      [DocItem.paragraph
        ((if "See ".data.isEmpty then [] else [("See ".data, false)]) ++
          ("this".data, true) ::
            (if " now.".data.isEmpty then [] else [(" now.".data, false)]))] :=
  processLine_bold "See ".data "this".data " now.".data
    (by decide) (by decide) (by decide) (by decide)

/-! ### Claim C4: corrupt DICOM upload -/

/-- C4.  For every upload with a DICOM name whose decode raises, the script
reports the decode error, displays no raster, and `st.stop()` halts the
run: no resize, no image, no analyze button, no analysis, no export — for
any key configuration and regardless of a click. -/
theorem dicom_decode_failure (key : Option String) (u : Upload)
    (clicked : Bool) (hname : isDicomName u.name = true)
    (hfail : u.dicom = DicomRead.fail) :
    Widget.decodeError ∈ (runScript key (some u) clicked).widgets ∧
    (runScript key (some u) clicked).displayedDicom = none ∧
    (runScript key (some u) clicked).resized = none ∧
    (runScript key (some u) clicked).networkCall = false ∧
    Widget.imageView ∉ (runScript key (some u) clicked).widgets ∧
    Widget.analyzeButton ∉ (runScript key (some u) clicked).widgets ∧
    Widget.analysisMarkdown ∉ (runScript key (some u) clicked).widgets ∧
    Widget.downloadButton ∉ (runScript key (some u) clicked).widgets := by
  cases hk : pyTruthy key <;>
    simp [runScript, medical_agent, hname, hfail, hk]

/-- Witness for C4: a corrupt upload named `scan.dcm`, with a key
configured and the button clicked. -/
theorem dicom_decode_failure_witness :
    Widget.decodeError ∈ (runScript (some "k")
      (some ⟨"scan.dcm".data, DicomRead.fail, none⟩) true).widgets ∧
    (runScript (some "k")
      (some ⟨"scan.dcm".data, DicomRead.fail, none⟩) true).displayedDicom = none ∧
    (runScript (some "k")
      (some ⟨"scan.dcm".data, DicomRead.fail, none⟩) true).resized = none ∧
    (runScript (some "k")
      (some ⟨"scan.dcm".data, DicomRead.fail, none⟩) true).networkCall = false ∧
    Widget.imageView ∉ (runScript (some "k")
      (some ⟨"scan.dcm".data, DicomRead.fail, none⟩) true).widgets ∧
    Widget.analyzeButton ∉ (runScript (some "k")
      (some ⟨"scan.dcm".data, DicomRead.fail, none⟩) true).widgets ∧
    Widget.analysisMarkdown ∉ (runScript (some "k")
      (some ⟨"scan.dcm".data, DicomRead.fail, none⟩) true).widgets ∧
    Widget.downloadButton ∉ (runScript (some "k")
      (some ⟨"scan.dcm".data, DicomRead.fail, none⟩) true).widgets :=
  dicom_decode_failure (some "k") ⟨"scan.dcm".data, DicomRead.fail, none⟩ true
    (by decide) rfl

/-! ### Claim C1: missing API key -/

/-- C1 counterexample: with no API key configured, the analysis trigger is
NOT removed — the analyze button is still rendered for a decoded upload
(the claim's "the analysis trigger is unavailable" fails on the code). -/
theorem no_key_button_still_rendered :
    Widget.analyzeButton ∈
      (runScript none
        (some ⟨"scan.png".data, DicomRead.fail, some (100, 80)⟩)
        false).widgets := by
  have hdn : isDicomName "scan.png".data = false := by decide
  simp [runScript, afterImage, medical_agent, pyTruthy, hdn,
    pilResizeOk_100_80]

/-- C1 (amended).  With no API key, the agent is `None`: no network call is
ever attempted, no analysis output or export is produced, and the UI shell
(uploader, missing-key error) remains available; for a decoded standard
upload whose resize succeeds (computed height positive, `w ≤ 500 * h`) the
analyze button is still rendered and clicking it yields the generic
analysis error message instead of a network call. -/
theorem no_key_analysis_disabled (upload : Option Upload) (clicked : Bool) :
    (runScript none upload clicked).networkCall = false ∧
    Widget.apiError ∈ (runScript none upload clicked).widgets ∧
    Widget.uploader ∈ (runScript none upload clicked).widgets ∧
    Widget.analysisMarkdown ∉ (runScript none upload clicked).widgets ∧
    Widget.downloadButton ∉ (runScript none upload clicked).widgets ∧
    (∀ u w h, upload = some u → isDicomName u.name = false →
      u.raster = some (w, h) →
      pilResizeOk (resizeDims w h).1 (resizeDims w h).2 = true →
      Widget.analyzeButton ∈ (runScript none upload clicked).widgets ∧
      (clicked = true →
        Widget.analysisError ∈ (runScript none upload clicked).widgets)) := by
  rcases upload with _ | ⟨name, dicom, raster⟩
  · simp [runScript, medical_agent, pyTruthy]
  · cases hdn : isDicomName name
    · rcases raster with _ | ⟨w0, h0⟩
      · cases clicked <;>
          simp [runScript, afterImage, medical_agent, pyTruthy, hdn] <;>
          (rintro u w h rfl; simp_all)
      · cases hg : pilResizeOk (resizeDims w0 h0).1 (resizeDims w0 h0).2 <;>
          cases clicked <;>
          simp [runScript, afterImage, medical_agent, pyTruthy, hdn, hg] <;>
          (rintro u w h rfl; simp_all) <;>
          (rintro rfl rfl; exact hg)
    · cases dicom with
      | fail =>
        cases clicked <;>
          simp [runScript, afterImage, medical_agent, pyTruthy, hdn] <;>
          (rintro u w h rfl; simp_all)
      | ok px w1 h1 =>
        cases hg : pilResizeOk (resizeDims w1 h1).1 (resizeDims w1 h1).2 <;>
          cases clicked <;>
          simp [runScript, afterImage, medical_agent, pyTruthy, hdn, hg] <;>
          (rintro u w h rfl; simp_all)

/-- Witness for C1 (amended) at a decoded `scan.png` upload with the button
clicked. -/
theorem no_key_analysis_disabled_witness :
    (runScript none
      (some ⟨"scan.png".data, DicomRead.fail, some (100, 80)⟩)
      true).networkCall = false ∧
    Widget.analyzeButton ∈ (runScript none
      (some ⟨"scan.png".data, DicomRead.fail, some (100, 80)⟩)
      true).widgets ∧
    Widget.analysisError ∈ (runScript none
      (some ⟨"scan.png".data, DicomRead.fail, some (100, 80)⟩)
      true).widgets := by
  have h := no_key_analysis_disabled
    (some ⟨"scan.png".data, DicomRead.fail, some (100, 80)⟩) true
  rcases h with ⟨h1, -, -, -, -, h6⟩
  rcases h6 ⟨"scan.png".data, DicomRead.fail, some (100, 80)⟩ 100 80 rfl
    (by decide) rfl pilResizeOk_100_80 with ⟨hbtn, herr⟩
  exact ⟨h1, hbtn, herr rfl⟩

end MedSight

